import Mathlib

/-!
Verification of the cronexplain repository (src/index.ts): a five-field cron
expression parser, validator, explainer and next-run scheduler.

The TypeScript source is shallowly embedded below.  JavaScript numbers that
can only ever hold integers (or NaN) in this program are modelled as
`Int` (with `Option Int` where NaN can arise); JS strings are `String`;
thrown exceptions are `Except CronErr`; the `Date`-based search cursor is an
explicit calendar record `DT`.  Fields reaching `parseInt` / `Number` never
contain whitespace (the expression is split on whitespace first), and are
integer tokens, so the numeric parsers model the integer fragment of the
JS functions.
-/

namespace Cronexplain

/-- JS `s.split(sep)` on a single-character separator, at the char-list
level: `"" ↦ [""]`, separators at the ends produce empty pieces. -/
def splitCharList (sep : Char) : List Char → List (List Char)
  | [] => [[]]
  | c :: rest =>
    if c = sep then [] :: splitCharList sep rest
    else
      match splitCharList sep rest with
      | [] => [[c]]
      | h :: t => (c :: h) :: t

/-- JS `s.split(sep)` for a one-character separator. -/
def splitOnChar (sep : Char) (s : String) : List String :=
  (splitCharList sep s.data).map (fun l => String.mk l)

/-- JS `s.includes(c)` for a single character `c`. -/
def hasChar (s : String) (c : Char) : Bool :=
  s.data.contains c

/-- Numeric value of a (all-digit) character list, most significant first. -/
def digitsVal (l : List Char) : Int :=
  l.foldl (fun acc c => acc * 10 + ((c.toNat : Int) - 48)) 0

/-- Maximal leading digit run of `cs`, as a number; `none` when `cs` does not
start with a digit (JS `parseInt` yields NaN there). -/
def takeDigitsVal (cs : List Char) : Option Int :=
  let ds := cs.takeWhile Char.isDigit
  if ds.isEmpty then none else some (digitsVal ds)

/-- JS `parseInt(s, 10)` on the whitespace-free integer tokens this program
feeds it: optional sign, then the maximal digit prefix; `none` models NaN. -/
def jsParseInt (s : String) : Option Int :=
  match s.data with
  | '-' :: rest => (takeDigitsVal rest).map (fun n => -n)
  | '+' :: rest => takeDigitsVal rest
  | cs => takeDigitsVal cs

/-- JS `Number(s)` on the integer tokens this program feeds it: the empty
string is 0, otherwise the whole string must be an optionally signed digit
run; `none` models NaN. -/
def jsNumber (s : String) : Option Int :=
  match s.data with
  | [] => some 0
  | '-' :: rest =>
    if !rest.isEmpty && rest.all Char.isDigit then some (-(digitsVal rest)) else none
  | '+' :: rest =>
    if !rest.isEmpty && rest.all Char.isDigit then some (digitsVal rest) else none
  | cs => if cs.all Char.isDigit then some (digitsVal cs) else none

/-- Insertion-order deduplication, as a JS `Set` built by repeated `add`:
keeps the first occurrence of each value. -/
def insertUniqueAux (acc : List Int) : List Int → List Int
  | [] => acc
  | x :: xs =>
    if acc.contains x then insertUniqueAux acc xs
    else insertUniqueAux (acc ++ [x]) xs

/-- The element list of a JS `Set` filled from `l` in order. -/
def jsSetList (l : List Int) : List Int :=
  insertUniqueAux [] l

/-- Body of the JS loop `for (let i = start; i <= stop; i += step)`: tests
the condition, emits `start`, advances by `step`.  The fuel only bounds the
iteration count (each pass advances `start` by at least 1 when `0 < step`),
so any fuel of at least `stop + 1 - start` gives the loop's exact output. -/
def rangeStepAux (step stop : Int) : Nat → Int → List Int
  | 0, _ => []
  | n + 1, start =>
    if stop < start then [] else start :: rangeStepAux step stop n (start + step)

/-- The JS loop `for (let i = start; i <= stop; i += step) values.add(i)`.
The program only calls this with `0 < step`; the `step ≤ 0` guard shields
the fuel bound from nonpositive steps. -/
def rangeStepList (start stop step : Int) : List Int :=
  if step ≤ 0 then [] else rangeStepAux step stop (stop + 1 - start).toNat start

/-- The error values thrown by the parser, with the data each message
carries (`CronErr.msg` renders the exact message strings of the source). -/
inductive CronErr where
  | invalidStep (part : String)
  | invalidRange (part : String)
  | invalidValue (part : String)
  | outOfRange (v min max : Int)
  | fieldCount (n : Nat)
deriving DecidableEq, Repr

/-- The exact `Error` message strings thrown in src/index.ts. -/
def CronErr.msg : CronErr → String
  | .invalidStep part => "Invalid step: " ++ part
  | .invalidRange part => "Invalid range: " ++ part
  | .invalidValue part => "Invalid value: " ++ part
  | .outOfRange v mn mx =>
    "Value " ++ toString v ++ " out of range [" ++ toString mn ++ "-" ++ toString mx ++ "]"
  | .fieldCount n =>
    "Expected 5 fields (minute hour day month weekday), got " ++ toString n

/-- `ParsedField` of the source: the resolved values plus the raw text. -/
structure ParsedField where
  values : List Int
  raw : String
deriving DecidableEq, Repr

instance {ε α : Type} [DecidableEq ε] [DecidableEq α] :
    DecidableEq (Except ε α) := fun a b =>
  match a, b with
  | .ok x, .ok y =>
    if h : x = y then .isTrue (by rw [h]) else .isFalse (by simp [h])
  | .error x, .error y =>
    if h : x = y then .isTrue (by rw [h]) else .isFalse (by simp [h])
  | .ok _, .error _ => .isFalse (by simp)
  | .error _, .ok _ => .isFalse (by simp)

/-- The values one comma-separated term of a field contributes, mirroring
the body of the `for (const part of parts)` loop in `parseField`.
In the step branch, a NaN `start`/`end` (modelled `none`) makes the JS
loop run zero times, so the term silently contributes nothing. -/
def termValues (part : String) (mn mx : Int) : Except CronErr (List Int) :=
  if part = "*" then .ok (rangeStepList mn mx 1)
  else if hasChar part '/' then
    match splitOnChar '/' part with
    | range :: stepStr :: _ =>
      match jsParseInt stepStr with
      | none => .error (.invalidStep part)
      | some step =>
        if step ≤ 0 then .error (.invalidStep part)
        else
          let se : Option Int × Option Int :=
            if range = "*" then (some mn, some mx)
            else if hasChar range '-' then
              match splitOnChar '-' range with
              | a :: b :: _ => (jsNumber a, jsNumber b)
              | _ => (none, none)
            else (jsParseInt range, some mx)
          match se with
          | (some s, some e) => .ok (rangeStepList s e step)
          | _ => .ok []
    | _ => .error (.invalidStep part)
  else if hasChar part '-' then
    match splitOnChar '-' part with
    | a :: b :: _ =>
      match jsNumber a, jsNumber b with
      | some x, some y => .ok (rangeStepList x y 1)
      | _, _ => .error (.invalidRange part)
    | _ => .error (.invalidRange part)
  else
    match jsParseInt part with
    | none => .error (.invalidValue part)
    | some n => .ok [n]

/-- All values contributed by the comma-separated terms, first error wins
(the JS loop throws at the first bad part). -/
def collectAll (parts : List String) (mn mx : Int) : Except CronErr (List Int) :=
  match parts with
  | [] => .ok []
  | p :: ps =>
    match termValues p mn mx with
    | .error e => .error e
    | .ok v =>
      match collectAll ps mn mx with
      | .error e => .error e
      | .ok rest => .ok (v ++ rest)

/-- `Array.from(values).sort((a, b) => a - b)` applied to the union of all
terms of the raw field: dedup in insertion order, then sort ascending. -/
def fieldValuesSorted (raw : String) (mn mx : Int) : Except CronErr (List Int) :=
  match collectAll (splitOnChar ',' raw) mn mx with
  | .error e => .error e
  | .ok vals => .ok (List.insertionSort (· ≤ ·) (jsSetList vals))

/-- `parseField` of the source: union the terms, sort, then fail on the
first value out of `[mn, mx]` in ascending order. -/
def parseField (raw : String) (mn mx : Int) : Except CronErr ParsedField :=
  match fieldValuesSorted raw mn mx with
  | .error e => .error e
  | .ok sorted =>
    match sorted.find? (fun v => decide (v < mn) || decide (mx < v)) with
    | some v => .error (.outOfRange v mn mx)
    | none => .ok ⟨sorted, raw⟩

/-- `CronParts` of the source: the five raw field strings. -/
structure CronParts where
  minute : String
  hour : String
  dayOfMonth : String
  month : String
  dayOfWeek : String
deriving DecidableEq, Repr

/-- One pass of JS `String.replace(new RegExp(name, "gi"), rep)` for a
plain-text pattern: left-to-right, non-overlapping, replacements are not
rescanned.  The names are alphabetic so the regex is a literal substring.
The fuel is the input length; every step consumes at least one character. -/
def replaceAllAux (fuel : Nat) (s pat rep : List Char) : List Char :=
  match fuel with
  | 0 => s
  | f + 1 =>
    match s with
    | [] => []
    | c :: rest =>
      if pat.isPrefixOf s then rep ++ replaceAllAux f (s.drop pat.length) pat rep
      else c :: replaceAllAux f rest pat rep

/-- Replace every occurrence of `pat` in `s` by `rep`. -/
def replaceAllCS (s pat rep : List Char) : List Char :=
  if pat.isEmpty then s else replaceAllAux s.length s pat rep

/-- `MONTH_MAP` of the source, in `Object.entries` insertion order. -/
def MONTH_MAP : List (String × Int) :=
  [("jan", 1), ("feb", 2), ("mar", 3), ("apr", 4), ("may", 5), ("jun", 6),
   ("jul", 7), ("aug", 8), ("sep", 9), ("oct", 10), ("nov", 11), ("dec", 12)]

/-- `DAY_MAP` of the source, in `Object.entries` insertion order. -/
def DAY_MAP : List (String × Int) :=
  [("sun", 0), ("mon", 1), ("tue", 2), ("wed", 3), ("thu", 4), ("fri", 5), ("sat", 6)]

/-- `replaceNames` of the source: lowercase the field, then substitute each
map entry in order (case-insensitivity is moot after lowercasing, since the
substituted digits contain no letters). -/
def replaceNames (field : String) (map : List (String × Int)) : String :=
  map.foldl
    (fun acc p => String.mk (replaceAllCS acc.data p.1.data (toString p.2).data))
    (String.mk (field.data.map Char.toLower))

/-- Whitespace-run tokenisation at the char level.  Each pass consumes at
least one character, so `l.length` fuel is always enough. -/
def splitWsAux : Nat → List Char → List (List Char)
  | 0, _ => []
  | n + 1, l =>
    match l with
    | [] => []
    | c :: rest =>
      if c.isWhitespace then splitWsAux n rest
      else
        let tok := (c :: rest).takeWhile (fun ch => !ch.isWhitespace)
        tok :: splitWsAux n ((c :: rest).drop tok.length)

/-- JS `expr.trim().split(/\s+/)`: whitespace-run tokenisation, except that
the empty (or all-blank) string yields `[""]` as in JS. -/
def splitWsJS (s : String) : List String :=
  let words := (splitWsAux s.data.length s.data).map (fun l => String.mk l)
  if words.isEmpty then [""] else words

/-- `parseCron` of the source: exactly five whitespace-separated fields,
with month/weekday names rewritten to numbers. -/
def parseCron (expr : String) : Except CronErr CronParts :=
  match splitWsJS expr with
  | [mi, h, dom, mo, dw] =>
    .ok ⟨mi, h, dom, replaceNames mo MONTH_MAP, replaceNames dw DAY_MAP⟩
  | l => .error (.fieldCount l.length)

/-- The source's `{ valid: boolean; error?: string }`. -/
structure ValidationResult where
  valid : Bool
  error : Option String
deriving DecidableEq, Repr

/-- `validateCron` of the source: parse, then grammar-check the five fields
in order minute, hour, day-of-month, month, day-of-week; the first thrown
error is caught and reported. -/
def validateCron (expr : String) : ValidationResult :=
  match parseCron expr with
  | .error e => ⟨false, some e.msg⟩
  | .ok parts =>
    match parseField parts.minute 0 59 with
    | .error e => ⟨false, some e.msg⟩
    | .ok _ =>
      match parseField parts.hour 0 23 with
      | .error e => ⟨false, some e.msg⟩
      | .ok _ =>
        match parseField parts.dayOfMonth 1 31 with
        | .error e => ⟨false, some e.msg⟩
        | .ok _ =>
          match parseField parts.month 1 12 with
          | .error e => ⟨false, some e.msg⟩
          | .ok _ =>
            match parseField parts.dayOfWeek 0 7 with
            | .error e => ⟨false, some e.msg⟩
            | .ok _ => ⟨true, none⟩

/-- `MONTH_NAMES` of the source (index 0 unused, hence empty). -/
def MONTH_NAMES : List String :=
  ["", "January", "February", "March", "April", "May", "June",
   "July", "August", "September", "October", "November", "December"]

/-- `DAY_NAMES` of the source (seven entries, indices 0 through 6). -/
def DAY_NAMES : List String :=
  ["Sunday", "Monday", "Tuesday", "Wednesday", "Thursday", "Friday", "Saturday"]

/-- JS `names[i]` for an `Option Int` index: `none` for NaN, a negative
index, or an index past the end (all give `undefined` in JS). -/
def jsIndex (names : List String) (i : Option Int) : Option String :=
  match i with
  | none => none
  | some n => if n < 0 then none else names.get? n.toNat

/-- The range-endpoint rendering `names ? names[parseInt(a)] : a` of
`explainField`: a missing name is JS `undefined`, which a template literal
prints as the text "undefined"; there is no fallback to the raw text. -/
def renderName (names : Option (List String)) (raw : String) : String :=
  match names with
  | none => raw
  | some ns =>
    match jsIndex ns (jsParseInt raw) with
    | some s => s
    | none => "undefined"

/-- The singleton rendering `names ? names[val] || part : part` of
`explainField`: here a missing (or empty, hence falsy) name falls back to
the raw part text. -/
def renderSingle (names : Option (List String)) (part : String) : String :=
  match names with
  | none => part
  | some ns =>
    match jsIndex ns (jsParseInt part) with
    | some s => if s = "" then part else s
    | none => part

/-- One comma-separated term of `explainField`.  The catch-all branches are
unreachable: a part containing the separator splits into at least two
pieces. -/
def explainTerm (names : Option (List String)) (part : String) : String :=
  if hasChar part '/' then
    match splitOnChar '/' part with
    | range :: step :: _ =>
      if range = "*" then "every " ++ step
      else if hasChar range '-' then
        match splitOnChar '-' range with
        | a :: b :: _ =>
          "every " ++ step ++ " from " ++ renderName names a ++ " through " ++
            renderName names b
        | _ => ""
      else "every " ++ step ++ " starting at " ++ renderName names range
    | _ => ""
  else if hasChar part '-' then
    match splitOnChar '-' part with
    | a :: b :: _ => renderName names a ++ " through " ++ renderName names b
    | _ => ""
  else renderSingle names part

/-- `explainField` of the source (the numeric bounds are accepted and
ignored, exactly as in the source signature). -/
def explainField (raw : String) (_mn _mx : Int) (names : Option (List String)) :
    String :=
  if raw = "*" then "every"
  else String.intercalate ", " ((splitOnChar ',' raw).map (explainTerm names))

/-- The hour-value mapping inside `explainCron`: sub-terms containing a
dash pass through as raw text; everything else goes through `parseInt` and
12-hour clock rendering (a NaN `parseInt` result prints as "NaN"). -/
def renderHourSub (h : String) : String :=
  if hasChar h '-' then h
  else
    match jsParseInt h with
    | none => "NaN:00 AM"
    | some n =>
      let ampm := if 12 ≤ n then "PM" else "AM"
      let h12 : Int := if n = 0 then 12 else if 12 < n then n - 12 else n
      toString h12 ++ ":00 " ++ ampm

/-- `explainCron` of the source: validate all five fields, then join the
per-field clauses. -/
def explainCron (expr : String) : Except CronErr String :=
  match parseCron expr with
  | .error e => .error e
  | .ok parts =>
    match parseField parts.minute 0 59 with
    | .error e => .error e
    | .ok _ =>
      match parseField parts.hour 0 23 with
      | .error e => .error e
      | .ok _ =>
        match parseField parts.dayOfMonth 1 31 with
        | .error e => .error e
        | .ok _ =>
          match parseField parts.month 1 12 with
          | .error e => .error e
          | .ok _ =>
            match parseField parts.dayOfWeek 0 7 with
            | .error e => .error e
            | .ok _ =>
              let p1 :=
                if parts.minute = "*" then "every minute"
                else if "*/".data.isPrefixOf parts.minute.data then
                  "every " ++ String.mk (parts.minute.data.drop 2) ++ " minutes"
                else "at minute " ++ explainField parts.minute 0 59 none
              let p2 :=
                if parts.hour = "*" then "of every hour"
                else if "*/".data.isPrefixOf parts.hour.data then
                  "every " ++ String.mk (parts.hour.data.drop 2) ++ " hours"
                else
                  "at " ++ String.intercalate ", "
                    ((splitOnChar ',' parts.hour).map renderHourSub)
              let rest :=
                (if parts.dayOfMonth ≠ "*" then
                  ["on day " ++ explainField parts.dayOfMonth 1 31 none] else []) ++
                (if parts.month ≠ "*" then
                  ["in " ++ explainField parts.month 1 12 (some MONTH_NAMES)] else []) ++
                (if parts.dayOfWeek ≠ "*" then
                  ["on " ++ explainField parts.dayOfWeek 0 7 (some DAY_NAMES)] else [])
              .ok (String.intercalate " " (p1 :: p2 :: rest))

/-- The search cursor of `getNextRuns`: a local-calendar instant at minute
granularity (the code zeroes seconds and milliseconds immediately), with
the month 1-based as read through `getMonth() + 1`. -/
structure DT where
  year : Int
  month : Int
  day : Int
  hour : Int
  minute : Int
deriving DecidableEq, Repr

/-- Gregorian leap-year rule (as implemented by JS `Date`). -/
def isLeap (y : Int) : Bool :=
  y % 4 == 0 && (y % 100 != 0 || y % 400 == 0)

/-- Days in a month of the Gregorian calendar. -/
def daysInMonth (y m : Int) : Int :=
  if m = 2 then (if isLeap y then 29 else 28)
  else if m = 4 ∨ m = 6 ∨ m = 9 ∨ m = 11 then 30
  else 31

/-- A `DT` that denotes an actual calendar instant. -/
def DT.Valid (c : DT) : Prop :=
  1 ≤ c.month ∧ c.month ≤ 12 ∧ 1 ≤ c.day ∧ c.day ≤ daysInMonth c.year c.month ∧
    0 ≤ c.hour ∧ c.hour ≤ 23 ∧ 0 ≤ c.minute ∧ c.minute ≤ 59

instance (c : DT) : Decidable c.Valid := by
  unfold DT.Valid; infer_instance

/-- A strictly monotone (on valid instants) linearisation of the calendar:
later instants get larger keys. -/
def DT.key (c : DT) : Int :=
  (((c.year * 13 + c.month) * 32 + c.day) * 24 + c.hour) * 60 + c.minute

/-- `current.setMonth(current.getMonth() + 1, 1); current.setHours(0,0,0,0)`:
first day of the next month at midnight. -/
def nextMonthStart (c : DT) : DT :=
  if c.month = 12 then ⟨c.year + 1, 1, 1, 0, 0⟩
  else ⟨c.year, c.month + 1, 1, 0, 0⟩

/-- `current.setDate(current.getDate() + 1); current.setHours(0,0,0,0)`:
midnight of the next day, rolling over month and year ends. -/
def nextDayStart (c : DT) : DT :=
  if c.day = daysInMonth c.year c.month then nextMonthStart c
  else ⟨c.year, c.month, c.day + 1, 0, 0⟩

/-- `current.setHours(current.getHours() + 1, 0, 0, 0)` (the following
`setMinutes(0)` of the source is a no-op): start of the next hour. -/
def nextHourStart (c : DT) : DT :=
  if c.hour = 23 then nextDayStart c
  else ⟨c.year, c.month, c.day, c.hour + 1, 0⟩

/-- `current.setMinutes(current.getMinutes() + 1)` at zero seconds: the next
minute, rolling over hour, day, month and year ends. -/
def nextMinute (c : DT) : DT :=
  if c.minute = 59 then nextHourStart c
  else ⟨c.year, c.month, c.day, c.hour, c.minute + 1⟩

/-- Day count since 1970-01-01 of a civil date (Gregorian), using floor
divisions; standard days-from-civil computation, matching JS `Date`. -/
def daysFromCivil (y m d : Int) : Int :=
  let yy := if m ≤ 2 then y - 1 else y
  let era := yy.ediv 400
  let yoe := yy - era * 400
  let mp := (m + 9).emod 12
  let doy := (153 * mp + 2).ediv 5 + d - 1
  let doe := yoe * 365 + yoe.ediv 4 - yoe.ediv 100 + doy
  era * 146097 + doe - 719468

/-- JS `getDay()`: day of week, 0 = Sunday (1970-01-01 was a Thursday). -/
def dayOfWeek (y m d : Int) : Int :=
  (daysFromCivil y m d + 4).emod 7

/-- The day-match decision of `getNextRuns` (its `dayMatch` variable),
taking the raw-text wildcard flags and the normalized day-of-week set. -/
def dayMatchDec (domWild dowWild : Bool) (daysOfMonth dowSet : List Int)
    (dom dow : Int) : Bool :=
  if domWild && dowWild then true
  else if domWild then dowSet.contains dow
  else if dowWild then daysOfMonth.contains dom
  else daysOfMonth.contains dom || dowSet.contains dow

/-- Everything `getNextRuns` precomputes before its search loop. -/
structure SchedArgs where
  minutes : List Int
  hours : List Int
  daysOfMonth : List Int
  months : List Int
  dowSet : List Int
  domWild : Bool
  dowWild : Bool
deriving DecidableEq, Repr

/-- Lines 257-267 of the source: parse the expression, grammar-parse the
five fields, normalize day-of-week 7 to 0 into a set, and record whether
the two day fields are the literal wildcard. -/
def schedArgs (expr : String) : Except CronErr SchedArgs :=
  match parseCron expr with
  | .error e => .error e
  | .ok parts =>
    match parseField parts.minute 0 59 with
    | .error e => .error e
    | .ok minutes =>
      match parseField parts.hour 0 23 with
      | .error e => .error e
      | .ok hours =>
        match parseField parts.dayOfMonth 1 31 with
        | .error e => .error e
        | .ok dom =>
          match parseField parts.month 1 12 with
          | .error e => .error e
          | .ok months =>
            match parseField parts.dayOfWeek 0 7 with
            | .error e => .error e
            | .ok dows =>
              .ok ⟨minutes.values, hours.values, dom.values, months.values,
                jsSetList (dows.values.map (fun d => if d = 7 then 0 else d)),
                parts.dayOfMonth == "*", parts.dayOfWeek == "*"⟩

/-- The `while` loop of `getNextRuns`.  One unit of fuel is one loop
iteration (the source counts `iterations`); `need` is how many results are
still wanted (`count - results.length`), so the loop guard
`results.length < count` is `need ≠ 0`. -/
def go (a : SchedArgs) : Nat → Nat → DT → List DT
  | 0, _, _ => []
  | fuel + 1, need, cur =>
    if need = 0 then []
    else if a.months.contains cur.month then
      if a.hours.contains cur.hour then
        if dayMatchDec a.domWild a.dowWild a.daysOfMonth a.dowSet cur.day
            (dayOfWeek cur.year cur.month cur.day) then
          if a.minutes.contains cur.minute then
            cur :: go a fuel (need - 1) (nextMinute cur)
          else go a fuel need (nextMinute cur)
        else go a fuel need (nextDayStart cur)
      else go a fuel need (nextHourStart cur)
    else go a fuel need (nextMonthStart cur)

/-- `maxIterations` of the source. -/
def maxIterations : Nat := 525960

/-- The search start: `now` with seconds zeroed, advanced one minute. -/
def startCursor (now : DT) : DT := nextMinute now

/-- `getNextRuns` of the source, with the `new Date()` read of the current
instant passed in explicitly; `none` models a thrown parse error. -/
def getNextRuns (expr : String) (count : Nat) (now : DT) : Option (List DT) :=
  match schedArgs expr with
  | .error _ => none
  | .ok a => some (go a maxIterations count (startCursor now))

/-! ### Lemmas about the field grammar -/

lemma rangeStepAux_fuel (st e : Int) (hst : 0 < st) : ∀ (n m : Nat) (s : Int),
    (e + 1 - s).toNat ≤ n → (e + 1 - s).toNat ≤ m →
    rangeStepAux st e n s = rangeStepAux st e m s := by
  intro n
  induction n with
  | zero =>
    intro m s hn _
    have hes : e < s := by omega
    cases m with
    | zero => rfl
    | succ m => rw [rangeStepAux, rangeStepAux, if_pos hes]
  | succ k ih =>
    intro m s hn hm
    by_cases hes : e < s
    · cases m with
      | zero => rw [rangeStepAux, rangeStepAux, if_pos hes]
      | succ m => rw [rangeStepAux, rangeStepAux, if_pos hes, if_pos hes]
    · have : 1 ≤ (e + 1 - s).toNat := by omega
      cases m with
      | zero => omega
      | succ m =>
        rw [rangeStepAux, rangeStepAux, if_neg hes, if_neg hes,
          ih m (s + st) (by omega) (by omega)]

lemma rangeStepList_eq (s e st : Int) :
    rangeStepList s e st =
      if st ≤ 0 then [] else if e < s then [] else s :: rangeStepList (s + st) e st := by
  unfold rangeStepList
  by_cases hst : st ≤ 0
  · rw [if_pos hst, if_pos hst]
  · rw [if_neg hst, if_neg hst]
    by_cases hes : e < s
    · rw [if_pos hes]
      have h0 : (e + 1 - s).toNat = 0 := by omega
      rw [h0, rangeStepAux]
    · rw [if_neg hes]
      have h1 : (e + 1 - s).toNat = ((e + 1 - s).toNat - 1) + 1 := by omega
      rw [h1, rangeStepAux, if_neg hes,
        rangeStepAux_fuel st e (by omega) ((e + 1 - s).toNat - 1)
          (e + 1 - (s + st)).toNat (s + st) (by omega) (by omega), if_neg hst]

lemma rangeStepList_one_spec (n : Nat) : ∀ s e : Int, (e + 1 - s).toNat = n →
    (∀ v, v ∈ rangeStepList s e 1 ↔ s ≤ v ∧ v ≤ e) ∧
      List.Sorted (· < ·) (rangeStepList s e 1) := by
  induction n with
  | zero =>
    intro s e h
    rw [rangeStepList_eq, if_neg (by omega), if_pos (by omega)]
    constructor
    · intro v; simp; omega
    · simp
  | succ m ih =>
    intro s e h
    rw [rangeStepList_eq, if_neg (by omega)]
    by_cases he : e < s
    · rw [if_pos he]
      constructor
      · intro v; simp; omega
      · simp
    · rw [if_neg he]
      obtain ⟨hmem, hsort⟩ := ih (s + 1) e (by omega)
      constructor
      · intro v
        simp only [List.mem_cons, hmem]
        omega
      · rw [List.sorted_cons]
        exact ⟨fun b hb => by have := (hmem b).1 hb; omega, hsort⟩

lemma mem_rangeStepList_one {s e v : Int} :
    v ∈ rangeStepList s e 1 ↔ s ≤ v ∧ v ≤ e :=
  (rangeStepList_one_spec (e + 1 - s).toNat s e rfl).1 v

lemma sorted_rangeStepList_one (s e : Int) :
    List.Sorted (· < ·) (rangeStepList s e 1) :=
  (rangeStepList_one_spec (e + 1 - s).toNat s e rfl).2

lemma nodup_rangeStepList_one (s e : Int) : (rangeStepList s e 1).Nodup :=
  (sorted_rangeStepList_one s e).imp (fun h => ne_of_lt h)

lemma insertUniqueAux_eq_append : ∀ (l acc : List Int),
    (∀ x ∈ l, x ∉ acc) → l.Nodup → insertUniqueAux acc l = acc ++ l := by
  intro l
  induction l with
  | nil => intro acc _ _; simp [insertUniqueAux]
  | cons x xs ih =>
    intro acc hdis hnd
    have hx : acc.contains x = false := by
      simpa using hdis x (by simp)
    rw [insertUniqueAux, hx]
    simp only [Bool.false_eq_true, if_false]
    rw [ih (acc ++ [x])]
    · simp
    · intro y hy
      simp only [List.mem_append, List.mem_singleton]
      rintro (h | rfl)
      · exact hdis y (by simp [hy]) h
      · exact (List.nodup_cons.1 hnd).1 hy
    · exact (List.nodup_cons.1 hnd).2

lemma jsSetList_eq_self {l : List Int} (h : l.Nodup) : jsSetList l = l := by
  unfold jsSetList
  rw [insertUniqueAux_eq_append l [] (by simp) h]
  simp

lemma sorted_le_of_sorted_lt {l : List Int}
    (h : List.Sorted (· < ·) l) : List.Sorted (· ≤ ·) l :=
  h.imp (fun hl => le_of_lt hl)

/-- `fieldValuesSorted` always returns an ascending list. -/
lemma fieldValuesSorted_sorted {raw : String} {mn mx : Int} {vs : List Int}
    (h : fieldValuesSorted raw mn mx = .ok vs) : List.Sorted (· ≤ ·) vs := by
  unfold fieldValuesSorted at h
  cases hc : collectAll (splitOnChar ',' raw) mn mx with
  | error e => rw [hc] at h; cases h
  | ok vals =>
    rw [hc] at h
    cases h
    exact List.sorted_insertionSort _ _

/-! ### Lemmas about splitting -/

lemma splitCharList_of_not_mem {sep : Char} : ∀ {l : List Char}, sep ∉ l →
    splitCharList sep l = [l] := by
  intro l
  induction l with
  | nil => intro _; rfl
  | cons c rest ih =>
    intro h
    have hc : ¬ c = sep := fun hcs => h (hcs ▸ List.mem_cons_self c rest)
    rw [splitCharList, if_neg hc, ih (fun hm => h (List.mem_cons_of_mem c hm))]

lemma splitCharList_append {sep : Char} : ∀ {la : List Char} (lb : List Char),
    sep ∉ la → splitCharList sep (la ++ sep :: lb) = la :: splitCharList sep lb := by
  intro la
  induction la with
  | nil => intro lb _; simp [splitCharList]
  | cons c rest ih =>
    intro lb h
    have hc : ¬ c = sep := fun hcs => h (hcs ▸ List.mem_cons_self c rest)
    rw [List.cons_append, splitCharList, if_neg hc,
      ih lb (fun hm => h (List.mem_cons_of_mem c hm))]

lemma data_mk (s : String) : String.mk s.data = s := rfl

lemma splitOnChar_of_hasChar_false {sep : Char} {s : String}
    (h : hasChar s sep = false) : splitOnChar sep s = [s] := by
  have hm : sep ∉ s.data := by simpa [hasChar] using h
  simp [splitOnChar, splitCharList_of_not_mem hm]

lemma hasChar_not_mem {s : String} {c : Char} (h : hasChar s c = false) :
    c ∉ s.data := by
  simpa [hasChar] using h

lemma data_append3 (a sep b : String) :
    (a ++ sep ++ b).data = a.data ++ sep.data ++ b.data := rfl

lemma splitOnChar_append {sep : Char} {sa sb : String}
    (ha : hasChar sa sep = false) :
    splitOnChar sep (sa ++ String.mk [sep] ++ sb) = sa :: splitOnChar sep sb := by
  have hd : (sa ++ String.mk [sep] ++ sb).data = sa.data ++ sep :: sb.data := by
    rw [data_append3, List.append_assoc, List.singleton_append]
  simp only [splitOnChar, hd, splitCharList_append sb.data (hasChar_not_mem ha),
    List.map_cons, data_mk]

lemma collectAll_single {p : String} {mn mx : Int} {v : List Int}
    (h : termValues p mn mx = .ok v) : collectAll [p] mn mx = .ok v := by
  simp [collectAll, h]

lemma parseField_empty_of {raw : String} {mn mx : Int}
    (h : collectAll (splitOnChar ',' raw) mn mx = .ok []) :
    parseField raw mn mx = .ok ⟨[], raw⟩ := by
  unfold parseField fieldValuesSorted
  rw [h]
  rfl

lemma ne_star_of_mem {s : String} {c : Char} (h : c ∈ s.data) (hc : c ≠ '*') :
    s ≠ "*" := by
  intro he
  have hd : s.data = ['*'] := by rw [he]
  rw [hd] at h
  exact hc (List.mem_singleton.1 h)

/-- The values of a pure descending numeric range term are empty: the step
loop never executes. -/
lemma termValues_descending {sa sb : String} {a b : Int} (mn mx : Int)
    (ha2 : hasChar sa '/' = false) (ha3 : hasChar sa '-' = false)
    (hb2 : hasChar sb '/' = false) (hb3 : hasChar sb '-' = false)
    (hna : jsNumber sa = some a) (hnb : jsNumber sb = some b) (hba : b < a) :
    termValues (sa ++ "-" ++ sb) mn mx = .ok [] := by
  have hdata : (sa ++ "-" ++ sb).data = sa.data ++ '-' :: sb.data := by
    rw [data_append3, List.append_assoc]
    rfl
  have hdash : '-' ∈ (sa ++ "-" ++ sb).data := by
    rw [hdata]; simp
  have hstar : sa ++ "-" ++ sb ≠ "*" := ne_star_of_mem hdash (by decide)
  have hslash : hasChar (sa ++ "-" ++ sb) '/' = false := by
    have h1 := hasChar_not_mem ha2
    have h2 := hasChar_not_mem hb2
    have hmem : '/' ∉ sa.data ++ '-' :: sb.data := by
      simp only [List.mem_append, List.mem_cons]
      push_neg
      exact ⟨h1, by decide, h2⟩
    simpa [hasChar, hdata] using hmem
  have hdashb : hasChar (sa ++ "-" ++ sb) '-' = true := by
    simp [hasChar, hdata]
  have hsplit : splitOnChar '-' (sa ++ "-" ++ sb) = [sa, sb] := by
    have : sa ++ "-" ++ sb = sa ++ String.mk ['-'] ++ sb := rfl
    rw [this, splitOnChar_append ha3, splitOnChar_of_hasChar_false hb3]
  rw [termValues, if_neg hstar, if_neg (by rw [hslash]; exact Bool.false_ne_true),
    if_pos hdashb, hsplit]
  simp only [hna, hnb]
  rw [rangeStepList_eq, if_neg (by norm_num), if_pos hba]

/-- Claim C9 general part packaged: a field that is a single descending
numeric range parses to the empty value set. -/
theorem claim_C9 :
    (∀ (sa sb : String) (a b mn mx : Int),
      hasChar sa ',' = false → hasChar sa '/' = false → hasChar sa '-' = false →
      hasChar sb ',' = false → hasChar sb '/' = false → hasChar sb '-' = false →
      jsNumber sa = some a → jsNumber sb = some b → b < a →
      parseField (sa ++ "-" ++ sb) mn mx = .ok ⟨[], sa ++ "-" ++ sb⟩) ∧
    parseField "5-1" 0 59 = .ok ⟨[], "5-1"⟩ := by
  constructor
  · intro sa sb a b mn mx ha1 ha2 ha3 hb1 hb2 hb3 hna hnb hba
    have hdata : (sa ++ "-" ++ sb).data = sa.data ++ '-' :: sb.data := by
      rw [data_append3, List.append_assoc]
      rfl
    have hcomma : hasChar (sa ++ "-" ++ sb) ',' = false := by
      have h1 := hasChar_not_mem ha1
      have h2 := hasChar_not_mem hb1
      have hmem : ',' ∉ sa.data ++ '-' :: sb.data := by
        simp only [List.mem_append, List.mem_cons]
        push_neg
        exact ⟨h1, by decide, h2⟩
      simpa [hasChar, hdata] using hmem
    rw [parseField_empty_of]
    rw [splitOnChar_of_hasChar_false hcomma]
    exact collectAll_single
      (termValues_descending mn mx ha2 ha3 hb2 hb3 hna hnb hba)
  · decide

/-- Witness for C9: the general part applied to the spec's own instance
`"5-1"` over bounds 0 and 59. -/
theorem claim_C9_witness :
    parseField ("5" ++ "-" ++ "1") 0 59 = .ok ⟨[], "5" ++ "-" ++ "1"⟩ :=
  claim_C9.1 "5" "1" 5 1 0 59 (by decide) (by decide) (by decide) (by decide)
    (by decide) (by decide) (by decide) (by decide) (by decide)

/-! ### Lemmas about the calendar cursor -/

lemma daysInMonth_bounds (y m : Int) :
    1 ≤ daysInMonth y m ∧ daysInMonth y m ≤ 31 := by
  unfold daysInMonth
  split_ifs <;> omega

lemma nextMonthStart_spec {c : DT} (h : c.Valid) :
    (nextMonthStart c).Valid ∧ c.key < (nextMonthStart c).key := by
  obtain ⟨h1, h2, h3, h4, h5, h6, h7, h8⟩ := h
  have hb := daysInMonth_bounds c.year c.month
  have hb1 := daysInMonth_bounds (c.year + 1) 1
  have hb2 := daysInMonth_bounds c.year (c.month + 1)
  unfold nextMonthStart DT.Valid DT.key
  split_ifs with hm <;> dsimp only <;> omega

lemma nextDayStart_spec {c : DT} (h : c.Valid) :
    (nextDayStart c).Valid ∧ c.key < (nextDayStart c).key := by
  have hval := h
  obtain ⟨h1, h2, h3, h4, h5, h6, h7, h8⟩ := h
  have hb := daysInMonth_bounds c.year c.month
  unfold nextDayStart
  split_ifs with hd
  · exact nextMonthStart_spec hval
  · unfold DT.Valid DT.key
    dsimp only
    omega

lemma nextHourStart_spec {c : DT} (h : c.Valid) :
    (nextHourStart c).Valid ∧ c.key < (nextHourStart c).key := by
  have hval := h
  obtain ⟨h1, h2, h3, h4, h5, h6, h7, h8⟩ := h
  have hb := daysInMonth_bounds c.year c.month
  unfold nextHourStart
  split_ifs with hh
  · exact nextDayStart_spec hval
  · unfold DT.Valid DT.key
    dsimp only
    omega

lemma nextMinute_spec {c : DT} (h : c.Valid) :
    (nextMinute c).Valid ∧ c.key < (nextMinute c).key := by
  have hval := h
  obtain ⟨h1, h2, h3, h4, h5, h6, h7, h8⟩ := h
  have hb := daysInMonth_bounds c.year c.month
  unfold nextMinute
  split_ifs with hm
  · exact nextHourStart_spec hval
  · unfold DT.Valid DT.key
    dsimp only
    omega

/-! ### Lemmas about the search loop -/

lemma go_need_zero (a : SchedArgs) : ∀ (fuel : Nat) (cur : DT),
    go a fuel 0 cur = [] := by
  intro fuel cur
  cases fuel with
  | zero => rfl
  | succ n => rw [go, if_pos rfl]

/-- The loop invariant: at most `need` results, all valid, none before the
cursor, strictly increasing. -/
lemma go_spec (a : SchedArgs) : ∀ (fuel need : Nat) (cur : DT), cur.Valid →
    (go a fuel need cur).length ≤ need ∧
      (∀ r ∈ go a fuel need cur, r.Valid ∧ cur.key ≤ r.key) ∧
      List.Chain' (fun x y : DT => x.key < y.key) (go a fuel need cur) := by
  intro fuel
  induction fuel with
  | zero => intro need cur _; exact ⟨by simp [go], by simp [go], by simp [go]⟩
  | succ f ih =>
    intro need cur hv
    rw [go]
    by_cases h0 : need = 0
    · rw [if_pos h0]; exact ⟨by simp, by simp, by simp⟩
    rw [if_neg h0]
    by_cases hmon : a.months.contains cur.month
    rotate_left
    · simp only [hmon, Bool.false_eq_true, if_false]
      obtain ⟨hvn, hlt⟩ := nextMonthStart_spec hv
      obtain ⟨l1, l2, l3⟩ := ih need (nextMonthStart cur) hvn
      exact ⟨l1, fun r hr => ⟨(l2 r hr).1, le_trans (le_of_lt hlt) (l2 r hr).2⟩, l3⟩
    simp only [hmon, if_true]
    by_cases hhr : a.hours.contains cur.hour
    rotate_left
    · simp only [hhr, Bool.false_eq_true, if_false]
      obtain ⟨hvn, hlt⟩ := nextHourStart_spec hv
      obtain ⟨l1, l2, l3⟩ := ih need (nextHourStart cur) hvn
      exact ⟨l1, fun r hr => ⟨(l2 r hr).1, le_trans (le_of_lt hlt) (l2 r hr).2⟩, l3⟩
    simp only [hhr, if_true]
    by_cases hday : dayMatchDec a.domWild a.dowWild a.daysOfMonth a.dowSet cur.day
      (dayOfWeek cur.year cur.month cur.day)
    rotate_left
    · simp only [hday, Bool.false_eq_true, if_false]
      obtain ⟨hvn, hlt⟩ := nextDayStart_spec hv
      obtain ⟨l1, l2, l3⟩ := ih need (nextDayStart cur) hvn
      exact ⟨l1, fun r hr => ⟨(l2 r hr).1, le_trans (le_of_lt hlt) (l2 r hr).2⟩, l3⟩
    simp only [hday, if_true]
    obtain ⟨hvn, hlt⟩ := nextMinute_spec hv
    by_cases hmin : a.minutes.contains cur.minute
    rotate_left
    · simp only [hmin, Bool.false_eq_true, if_false]
      obtain ⟨l1, l2, l3⟩ := ih need (nextMinute cur) hvn
      exact ⟨l1, fun r hr => ⟨(l2 r hr).1, le_trans (le_of_lt hlt) (l2 r hr).2⟩, l3⟩
    simp only [hmin, if_true]
    obtain ⟨l1, l2, l3⟩ := ih (need - 1) (nextMinute cur) hvn
    refine ⟨?_, ?_, ?_⟩
    · simp only [List.length_cons]
      omega
    · intro r hr
      rcases List.mem_cons.1 hr with rfl | hr
      · exact ⟨hv, le_refl _⟩
      · exact ⟨(l2 r hr).1, le_trans (le_of_lt hlt) (l2 r hr).2⟩
    · rw [List.chain'_cons']
      refine ⟨?_, l3⟩
      intro y hy
      have hym := List.mem_of_mem_head? hy
      exact lt_of_lt_of_le hlt (l2 y hym).2

/-- More fuel cannot change a search that already found all its results. -/
lemma go_fuel_mono (a : SchedArgs) : ∀ (f g need : Nat) (cur : DT), f ≤ g →
    (go a f need cur).length = need → go a g need cur = go a f need cur := by
  intro f
  induction f with
  | zero =>
    intro g need cur _ hlen
    have : need = 0 := by simpa [go] using hlen.symm
    rw [this, go_need_zero, go_need_zero]
  | succ k ih =>
    intro g need cur hfg hlen
    cases g with
    | zero => omega
    | succ g =>
      rw [go] at hlen
      conv_lhs => rw [go]
      conv_rhs => rw [go]
      by_cases h0 : need = 0
      · rw [if_pos h0, if_pos h0]
      rw [if_neg h0] at hlen
      rw [if_neg h0, if_neg h0]
      by_cases hmon : a.months.contains cur.month
      rotate_left
      · simp only [hmon, Bool.false_eq_true, if_false] at hlen ⊢
        exact ih g need (nextMonthStart cur) (by omega) hlen
      simp only [hmon, if_true] at hlen ⊢
      by_cases hhr : a.hours.contains cur.hour
      rotate_left
      · simp only [hhr, Bool.false_eq_true, if_false] at hlen ⊢
        exact ih g need (nextHourStart cur) (by omega) hlen
      simp only [hhr, if_true] at hlen ⊢
      by_cases hday : dayMatchDec a.domWild a.dowWild a.daysOfMonth a.dowSet cur.day
        (dayOfWeek cur.year cur.month cur.day)
      rotate_left
      · simp only [hday, Bool.false_eq_true, if_false] at hlen ⊢
        exact ih g need (nextDayStart cur) (by omega) hlen
      simp only [hday, if_true] at hlen ⊢
      by_cases hmin : a.minutes.contains cur.minute
      rotate_left
      · simp only [hmin, Bool.false_eq_true, if_false] at hlen ⊢
        exact ih g need (nextMinute cur) (by omega) hlen
      simp only [hmin, if_true] at hlen ⊢
      have hl2 : (go a k (need - 1) (nextMinute cur)).length = need - 1 := by
        simp only [List.length_cons] at hlen
        omega
      rw [ih g (need - 1) (nextMinute cur) (by omega) hl2]

/-- Evaluation helper: a search that finds all `count` results within `f`
iterations gives the same list as the full `maxIterations` search. -/
lemma getNextRuns_small {expr : String} {count : Nat} {now : DT} {a : SchedArgs}
    (f : Nat) (ha : schedArgs expr = .ok a) (hf : f ≤ maxIterations)
    (hlen : (go a f count (startCursor now)).length = count) :
    getNextRuns expr count now = some (go a f count (startCursor now)) := by
  unfold getNextRuns
  rw [ha]
  exact congrArg some (go_fuel_mono a f maxIterations count _ hf hlen)

/-! ### The claims -/

/-- Claim C2: `getNextRuns` returns at most `count` results, none strictly
before the rounded start cursor, in strictly increasing chronological
order; and whenever the five fields parse it returns a (possibly short)
list normally, never an error. -/
theorem claim_C2 : ∀ (expr : String) (count : Nat) (now : DT) (rs : List DT),
    now.Valid → getNextRuns expr count now = some rs →
    rs.length ≤ count ∧
    (∀ r ∈ rs, (startCursor now).key ≤ r.key) ∧
    List.Chain' (fun x y : DT => x.key < y.key) rs ∧
    (∀ b, schedArgs expr = .ok b → ∃ l, getNextRuns expr count now = some l) := by
  intro expr count now rs hv h
  unfold getNextRuns at h
  cases ha : schedArgs expr with
  | error e => rw [ha] at h; cases h
  | ok a =>
    rw [ha] at h
    injection h with h
    subst h
    have hvs : (startCursor now).Valid := (nextMinute_spec hv).1
    obtain ⟨l1, l2, l3⟩ := go_spec a maxIterations count (startCursor now) hvs
    refine ⟨l1, fun r hr => (l2 r hr).2, l3, fun b hb => ?_⟩
    unfold getNextRuns
    rw [ha]
    exact ⟨_, rfl⟩

/-- Witness for C2 at a concrete valid instant and expression. -/
theorem claim_C2_witness :
    [(⟨2024, 6, 15, 12, 30⟩ : DT)].length ≤ 1 ∧
    (∀ r ∈ [(⟨2024, 6, 15, 12, 30⟩ : DT)],
      (startCursor ⟨2024, 6, 15, 12, 29⟩).key ≤ r.key) ∧
    List.Chain' (fun x y : DT => x.key < y.key) [(⟨2024, 6, 15, 12, 30⟩ : DT)] ∧
    (∀ b, schedArgs "30 12 15 6 *" = .ok b →
      ∃ l, getNextRuns "30 12 15 6 *" 1 ⟨2024, 6, 15, 12, 29⟩ = some l) :=
  claim_C2 "30 12 15 6 *" 1 ⟨2024, 6, 15, 12, 29⟩ [⟨2024, 6, 15, 12, 30⟩]
    (by decide)
    (by
      rw [getNextRuns_small 2
        (a := ⟨[30], [12], [15], [6], [0, 1, 2, 3, 4, 5, 6], false, true⟩)
        (by decide) (by decide) (by decide)]
      decide)

/-- Claim C6: day-of-week 7 is normalized to 0, so `"0 0 * * 7"` and
`"0 0 * * 0"` give identical run sequences from any start instant. -/
theorem claim_C6 : ∀ (count : Nat) (now : DT),
    getNextRuns "0 0 * * 7" count now = getNextRuns "0 0 * * 0" count now := by
  intro count now
  have h : schedArgs "0 0 * * 7" = schedArgs "0 0 * * 0" := by decide
  unfold getNextRuns
  rw [h]

/-- Witness for C6 at a concrete count and start instant. -/
theorem claim_C6_witness :
    getNextRuns "0 0 * * 7" 1 ⟨2024, 6, 2, 0, 0⟩ =
      getNextRuns "0 0 * * 0" 1 ⟨2024, 6, 2, 0, 0⟩ :=
  claim_C6 1 ⟨2024, 6, 2, 0, 0⟩

/-- Claim C1: the scheduler's day-match decision follows the four-case
wildcard rule with inclusive OR when both day fields are restricted, the
wildcard flags are read off the raw field text; and, end to end, the
expression `"0 9 1 * 1"` produces a Monday that is not the 1st, while a
raw `0-7` day-of-week (numerically full but not the literal `*`) is
treated as restricted. -/
theorem claim_C1 :
    (∀ (a : SchedArgs) (expr : String) (parts : CronParts),
      schedArgs expr = .ok a → parseCron expr = .ok parts →
      a.domWild = (parts.dayOfMonth == "*") ∧ a.dowWild = (parts.dayOfWeek == "*") ∧
      ∀ dom dow : Int,
        (a.domWild = true → a.dowWild = true →
          dayMatchDec a.domWild a.dowWild a.daysOfMonth a.dowSet dom dow = true) ∧
        (a.domWild = true → a.dowWild = false →
          (dayMatchDec a.domWild a.dowWild a.daysOfMonth a.dowSet dom dow = true ↔
            a.dowSet.contains dow = true)) ∧
        (a.domWild = false → a.dowWild = true →
          (dayMatchDec a.domWild a.dowWild a.daysOfMonth a.dowSet dom dow = true ↔
            a.daysOfMonth.contains dom = true)) ∧
        (a.domWild = false → a.dowWild = false →
          (dayMatchDec a.domWild a.dowWild a.daysOfMonth a.dowSet dom dow = true ↔
            (a.daysOfMonth.contains dom = true ∨ a.dowSet.contains dow = true)))) ∧
    getNextRuns "0 9 1 * 1" 1 ⟨2024, 6, 2, 0, 0⟩ = some [⟨2024, 6, 3, 9, 0⟩] ∧
    dayOfWeek 2024 6 3 = 1 ∧ (3 : Int) ≠ 1 ∧
    getNextRuns "0 9 2 * *" 1 ⟨2024, 6, 30, 0, 0⟩ = some [⟨2024, 7, 2, 9, 0⟩] ∧
    getNextRuns "0 9 2 * 0-7" 1 ⟨2024, 6, 30, 0, 0⟩ = some [⟨2024, 6, 30, 9, 0⟩] := by
  refine ⟨?_, ?_, by decide, by decide, ?_, ?_⟩
  · intro a expr parts ha hp
    unfold schedArgs at ha
    rw [hp] at ha
    dsimp only at ha
    cases h1 : parseField parts.minute 0 59 with
    | error e => rw [h1] at ha; cases ha
    | ok v1 =>
    rw [h1] at ha
    cases h2 : parseField parts.hour 0 23 with
    | error e => rw [h2] at ha; cases ha
    | ok v2 =>
    rw [h2] at ha
    cases h3 : parseField parts.dayOfMonth 1 31 with
    | error e => rw [h3] at ha; cases ha
    | ok v3 =>
    rw [h3] at ha
    cases h4 : parseField parts.month 1 12 with
    | error e => rw [h4] at ha; cases ha
    | ok v4 =>
    rw [h4] at ha
    cases h5 : parseField parts.dayOfWeek 0 7 with
    | error e => rw [h5] at ha; cases ha
    | ok v5 =>
    rw [h5] at ha
    injection ha with ha
    subst ha
    refine ⟨rfl, rfl, ?_⟩
    intro dom dow
    refine ⟨?_, ?_, ?_, ?_⟩ <;> intro hw1 hw2 <;>
      simp only [beq_iff_eq, beq_eq_false_iff_ne, ne_eq] at hw1 hw2 <;>
      simp [dayMatchDec, hw1, hw2]
  · rw [getNextRuns_small 32
      (a := ⟨[0], [9], [1], [1, 2, 3, 4, 5, 6, 7, 8, 9, 10, 11, 12], [1],
        false, false⟩) (by decide) (by decide) (by decide)]
    decide
  · rw [getNextRuns_small 32
      (a := ⟨[0], [9], [2], [1, 2, 3, 4, 5, 6, 7, 8, 9, 10, 11, 12],
        [0, 1, 2, 3, 4, 5, 6], false, true⟩) (by decide) (by decide) (by decide)]
    decide
  · rw [getNextRuns_small 16
      (a := ⟨[0], [9], [2], [1, 2, 3, 4, 5, 6, 7, 8, 9, 10, 11, 12],
        [0, 1, 2, 3, 4, 5, 6], false, false⟩) (by decide) (by decide) (by decide)]
    decide

/-- Witness for C1: the general day-match rule instantiated on the parse of
`"0 9 1 * 1"`, evaluated at day-of-month 2 and weekday 0. -/
theorem claim_C1_witness :
    dayMatchDec false false [1] [1] 2 0 = true ↔
      (List.contains [1] 2 = true ∨ List.contains [1] 0 = true) :=
  ((claim_C1.1 ⟨[0], [9], [1], [1, 2, 3, 4, 5, 6, 7, 8, 9, 10, 11, 12], [1],
      false, false⟩ "0 9 1 * 1" ⟨"0", "9", "1", "*", "1"⟩
    (by decide) (by decide)).2.2 2 0).2.2.2 rfl rfl

/-- Claim C3: when the (sorted, deduplicated) union of a field's term
values contains an out-of-range value, `parseField` fails with an
OutOfRange error carrying the first violating value of the ascending list
(equivalently, the least violating value) together with `min` and `max`. -/
theorem claim_C3 : ∀ (raw : String) (mn mx : Int) (vs : List Int) (v : Int),
    fieldValuesSorted raw mn mx = .ok vs →
    vs.find? (fun x => decide (x < mn) || decide (mx < x)) = some v →
    parseField raw mn mx = .error (.outOfRange v mn mx) ∧
    List.Sorted (· ≤ ·) vs ∧ (v < mn ∨ mx < v) ∧ v ∈ vs ∧
    (∀ w ∈ vs, (w < mn ∨ mx < w) → v ≤ w) := by
  intro raw mn mx vs v hvs hf
  have hsorted := fieldValuesSorted_sorted hvs
  refine ⟨?_, hsorted, ?_, List.mem_of_find?_eq_some hf, ?_⟩
  · unfold parseField
    rw [hvs]
    dsimp only
    rw [hf]
  · have := List.find?_some hf
    simpa using this
  · obtain ⟨hpv, as, bs, heq, hprev⟩ := List.find?_eq_some.1 hf
    intro w hw hviol
    rw [heq] at hw hsorted
    rcases List.mem_append.1 hw with hwa | hwb
    · have hfalse := hprev w hwa
      simp at hfalse
      omega
    · rcases List.mem_cons.1 hwb with rfl | hwbs
      · exact le_refl _
      · exact List.rel_of_sorted_cons (List.pairwise_append.1 hsorted).2.1 w hwbs

/-- Witness for C3: the spec's own instance, `parseField "25" 0 23`. -/
theorem claim_C3_witness :
    parseField "25" 0 23 = .error (.outOfRange 25 0 23) ∧
    List.Sorted (· ≤ ·) ([25] : List Int) ∧ ((25 : Int) < 0 ∨ (23 : Int) < 25) ∧
    (25 : Int) ∈ ([25] : List Int) ∧
    (∀ w ∈ ([25] : List Int), (w < 0 ∨ 23 < w) → 25 ≤ w) :=
  claim_C3 "25" 0 23 [25] 25 (by decide) (by decide)

/-- Claim C5: `parseField "*" min max` succeeds with exactly the ascending
duplicate-free enumeration of `min..max`. -/
theorem claim_C5 : ∀ mn mx : Int, mn ≤ mx →
    parseField "*" mn mx = .ok ⟨rangeStepList mn mx 1, "*"⟩ ∧
    (∀ v : Int, v ∈ rangeStepList mn mx 1 ↔ mn ≤ v ∧ v ≤ mx) ∧
    List.Sorted (· < ·) (rangeStepList mn mx 1) := by
  intro mn mx _
  have hsplit : splitOnChar ',' "*" = ["*"] := rfl
  have hterm : termValues "*" mn mx = .ok (rangeStepList mn mx 1) := by
    unfold termValues
    rw [if_pos rfl]
  have hnd := nodup_rangeStepList_one mn mx
  have hfvs : fieldValuesSorted "*" mn mx = .ok (rangeStepList mn mx 1) := by
    unfold fieldValuesSorted
    rw [hsplit, collectAll_single hterm]
    dsimp only
    rw [jsSetList_eq_self hnd,
      (sorted_le_of_sorted_lt (sorted_rangeStepList_one mn mx)).insertionSort_eq]
  refine ⟨?_, fun v => mem_rangeStepList_one, sorted_rangeStepList_one mn mx⟩
  unfold parseField
  rw [hfvs]
  have hnone : (rangeStepList mn mx 1).find?
      (fun v => decide (v < mn) || decide (mx < v)) = none := by
    rw [List.find?_eq_none]
    intro x hx
    have := mem_rangeStepList_one.1 hx
    simp only [Bool.or_eq_true, decide_eq_true_eq, not_or]
    omega
  dsimp only
  rw [hnone]

/-- Witness for C5 at bounds 0 and 3. -/
theorem claim_C5_witness :
    parseField "*" 0 3 = .ok ⟨rangeStepList 0 3 1, "*"⟩ ∧
    (∀ v : Int, v ∈ rangeStepList 0 3 1 ↔ 0 ≤ v ∧ v ≤ 3) ∧
    List.Sorted (· < ·) (rangeStepList 0 3 1) :=
  claim_C5 0 3 (by decide)

/-- Claim C4: `validateCron` is all-or-nothing (valid with no message, or
invalid with exactly one message), succeeds iff all five fields parse in
the fixed order minute, hour, day-of-month, month, day-of-week, and on
failure reports exactly the message of the leftmost failing field, however
the later fields behave. -/
theorem claim_C4 :
    (∀ expr, validateCron expr = ⟨true, none⟩ ∨
      ∃ m, validateCron expr = ⟨false, some m⟩) ∧
    (∀ expr e, parseCron expr = .error e →
      validateCron expr = ⟨false, some e.msg⟩) ∧
    (∀ expr parts, parseCron expr = .ok parts →
      (validateCron expr = ⟨true, none⟩ ↔
        ((parseField parts.minute 0 59).isOk ∧ (parseField parts.hour 0 23).isOk ∧
         (parseField parts.dayOfMonth 1 31).isOk ∧ (parseField parts.month 1 12).isOk ∧
         (parseField parts.dayOfWeek 0 7).isOk)) ∧
      (∀ e, parseField parts.minute 0 59 = .error e →
        validateCron expr = ⟨false, some e.msg⟩) ∧
      (∀ v1 e, parseField parts.minute 0 59 = .ok v1 →
        parseField parts.hour 0 23 = .error e →
        validateCron expr = ⟨false, some e.msg⟩) ∧
      (∀ v1 v2 e, parseField parts.minute 0 59 = .ok v1 →
        parseField parts.hour 0 23 = .ok v2 →
        parseField parts.dayOfMonth 1 31 = .error e →
        validateCron expr = ⟨false, some e.msg⟩) ∧
      (∀ v1 v2 v3 e, parseField parts.minute 0 59 = .ok v1 →
        parseField parts.hour 0 23 = .ok v2 →
        parseField parts.dayOfMonth 1 31 = .ok v3 →
        parseField parts.month 1 12 = .error e →
        validateCron expr = ⟨false, some e.msg⟩) ∧
      (∀ v1 v2 v3 v4 e, parseField parts.minute 0 59 = .ok v1 →
        parseField parts.hour 0 23 = .ok v2 →
        parseField parts.dayOfMonth 1 31 = .ok v3 →
        parseField parts.month 1 12 = .ok v4 →
        parseField parts.dayOfWeek 0 7 = .error e →
        validateCron expr = ⟨false, some e.msg⟩)) := by
  refine ⟨?_, ?_, ?_⟩
  · intro expr
    unfold validateCron
    cases parseCron expr with
    | error e => exact Or.inr ⟨e.msg, rfl⟩
    | ok parts =>
      dsimp only
      cases parseField parts.minute 0 59 with
      | error e => exact Or.inr ⟨e.msg, rfl⟩
      | ok v1 =>
      cases parseField parts.hour 0 23 with
      | error e => exact Or.inr ⟨e.msg, rfl⟩
      | ok v2 =>
      cases parseField parts.dayOfMonth 1 31 with
      | error e => exact Or.inr ⟨e.msg, rfl⟩
      | ok v3 =>
      cases parseField parts.month 1 12 with
      | error e => exact Or.inr ⟨e.msg, rfl⟩
      | ok v4 =>
      cases parseField parts.dayOfWeek 0 7 with
      | error e => exact Or.inr ⟨e.msg, rfl⟩
      | ok v5 => exact Or.inl rfl
  · intro expr e he
    unfold validateCron
    rw [he]
  · intro expr parts hp
    unfold validateCron
    rw [hp]
    dsimp only
    refine ⟨?_, ?_, ?_, ?_, ?_, ?_⟩
    · constructor
      · intro hval
        cases h1 : parseField parts.minute 0 59 with
        | error e => rw [h1] at hval; cases hval
        | ok v1 =>
        rw [h1] at hval
        cases h2 : parseField parts.hour 0 23 with
        | error e => rw [h2] at hval; cases hval
        | ok v2 =>
        rw [h2] at hval
        cases h3 : parseField parts.dayOfMonth 1 31 with
        | error e => rw [h3] at hval; cases hval
        | ok v3 =>
        rw [h3] at hval
        cases h4 : parseField parts.month 1 12 with
        | error e => rw [h4] at hval; cases hval
        | ok v4 =>
        rw [h4] at hval
        cases h5 : parseField parts.dayOfWeek 0 7 with
        | error e => rw [h5] at hval; cases hval
        | ok v5 => simp [Except.isOk, Except.toBool]
      · rintro ⟨o1, o2, o3, o4, o5⟩
        cases h1 : parseField parts.minute 0 59 with
        | error e => rw [h1] at o1; cases o1
        | ok v1 =>
        cases h2 : parseField parts.hour 0 23 with
        | error e => rw [h2] at o2; cases o2
        | ok v2 =>
        cases h3 : parseField parts.dayOfMonth 1 31 with
        | error e => rw [h3] at o3; cases o3
        | ok v3 =>
        cases h4 : parseField parts.month 1 12 with
        | error e => rw [h4] at o4; cases o4
        | ok v4 =>
        cases h5 : parseField parts.dayOfWeek 0 7 with
        | error e => rw [h5] at o5; cases o5
        | ok v5 => rfl
    · intro e h1
      rw [h1]
    · intro v1 e h1 h2
      rw [h1, h2]
    · intro v1 v2 e h1 h2 h3
      rw [h1, h2, h3]
    · intro v1 v2 v3 e h1 h2 h3 h4
      rw [h1, h2, h3, h4]
    · intro v1 v2 v3 v4 e h1 h2 h3 h4 h5
      rw [h1, h2, h3, h4, h5]

/-- Witness for C4: the all-valid case on `"* * * * *"` and the fail-fast
case on `"70 70 * * *"` (whose reported message is the minute one). -/
theorem claim_C4_witness :
    (validateCron "* * * * *" = ⟨true, none⟩ ↔
      ((parseField "*" 0 59).isOk ∧ (parseField "*" 0 23).isOk ∧
       (parseField "*" 1 31).isOk ∧ (parseField "*" 1 12).isOk ∧
       (parseField "*" 0 7).isOk)) ∧
    validateCron "70 70 * * *" =
      ⟨false, some (CronErr.outOfRange 70 0 59).msg⟩ :=
  ⟨((claim_C4.2.2) "* * * * *" ⟨"*", "*", "*", "*", "*"⟩ (by decide)).1,
   ((claim_C4.2.2) "70 70 * * *" ⟨"70", "70", "*", "*", "*"⟩ (by decide)).2.1
     (CronErr.outOfRange 70 0 59) (by decide)⟩

/-- Counterexample to claim C7 as stated: the step sub-term `"3/2"` of an
hour field is not passed through as its raw text — it is rendered through
`parseInt`, which reads the prefix `3`, as the clock form "3:00 AM". -/
theorem claim_C7_cex :
    renderHourSub "3/2" = "3:00 AM" ∧ renderHourSub "3/2" ≠ "3/2" ∧
    explainCron "0 3/2 * * *" = .ok "at minute 0 at 3:00 AM" := by
  refine ⟨by decide, by decide, by decide⟩

/-- Claim C7 (amended): in the hour clause, sub-terms containing a dash
pass through as raw text; every other sub-term (singletons, but also step
terms without a dash) is rendered through `parseInt` in 12-hour clock form
(0 → "12:00 AM", 12 → "12:00 PM", n > 12 → (n-12):00 PM, else n:00 AM). -/
theorem claim_C7 :
    (∀ h : String, hasChar h '-' = true → renderHourSub h = h) ∧
    (∀ (h : String) (n : Int), hasChar h '-' = false → jsParseInt h = some n →
      renderHourSub h =
        (if n = 0 then "12:00 AM"
         else if n = 12 then "12:00 PM"
         else if 12 < n then toString (n - 12) ++ ":00 PM"
         else toString n ++ ":00 AM")) ∧
    explainCron "0 3/2 * * *" = .ok "at minute 0 at 3:00 AM" ∧
    explainCron "0 0,9,13 * * *" = .ok "at minute 0 at 12:00 AM, 9:00 AM, 1:00 PM" ∧
    explainCron "0 9,10-12 * * *" = .ok "at minute 0 at 9:00 AM, 10-12" := by
  refine ⟨?_, ?_, by decide, by decide, by decide⟩
  · intro h hc
    unfold renderHourSub
    rw [if_pos hc]
  · intro h n hc hp
    unfold renderHourSub
    rw [if_neg (by rw [hc]; exact Bool.false_ne_true), hp]
    by_cases h0 : n = 0
    · subst h0
      decide
    by_cases h12 : n = 12
    · subst h12
      decide
    by_cases hgt : 12 < n
    · rw [if_neg h0, if_neg h12, if_pos hgt]
      dsimp only
      rw [if_neg h0, if_pos hgt, if_pos (by omega : (12 : Int) ≤ n),
        String.append_assoc]
      rfl
    · rw [if_neg h0, if_neg h12, if_neg hgt]
      dsimp only
      rw [if_neg h0, if_neg hgt, if_neg (by omega : ¬ (12 : Int) ≤ n),
        String.append_assoc]
      rfl

/-- Witness for C7 (amended): dash passthrough on `"10-12"` and clock
rendering of the singleton `"13"`. -/
theorem claim_C7_witness :
    renderHourSub "10-12" = "10-12" ∧ renderHourSub "13" =
      (if (13 : Int) = 0 then "12:00 AM"
       else if (13 : Int) = 12 then "12:00 PM"
       else if 12 < (13 : Int) then toString ((13 : Int) - 12) ++ ":00 PM"
       else toString (13 : Int) ++ ":00 AM") :=
  ⟨claim_C7.1 "10-12" (by decide), claim_C7.2.1 "13" 13 (by decide) (by decide)⟩

/-- Counterexample to claim C8 as stated: day-of-week 7 as a range endpoint
does not fall back to the raw numeral — the missing name-table entry is JS
`undefined`, and the clause renders the literal text "undefined". -/
theorem claim_C8_cex :
    explainField "5-7" 0 7 (some DAY_NAMES) = "Friday through undefined" ∧
    explainField "5-7" 0 7 (some DAY_NAMES) ≠ "Friday through 7" := by
  refine ⟨by decide, by decide⟩

/-- Claim C8 (amended): day-of-week 7 falls back to the raw numeral "7"
only in singleton position (the `|| part` fallback); in range and
stepped-range endpoint positions (and in the start of an `A/S` step term)
the absent name renders as the literal text "undefined". -/
theorem claim_C8 :
    explainField "7" 0 7 (some DAY_NAMES) = "7" ∧
    explainField "1,7" 0 7 (some DAY_NAMES) = "Monday, 7" ∧
    explainCron "0 0 * * 7" = .ok "at minute 0 at 12:00 AM on 7" ∧
    explainField "5-7" 0 7 (some DAY_NAMES) = "Friday through undefined" ∧
    explainField "5-7/2" 0 7 (some DAY_NAMES) =
      "every 2 from Friday through undefined" ∧
    explainField "7/1" 0 7 (some DAY_NAMES) = "every 1 starting at undefined" ∧
    (∀ part : String, jsParseInt part = some 7 →
      renderSingle (some DAY_NAMES) part = part) := by
  refine ⟨by decide, by decide, by decide, by decide, by decide, by decide, ?_⟩
  intro part hp
  unfold renderSingle jsIndex
  rw [hp]
  dsimp only
  rw [if_neg (by omega : ¬ (7 : Int) < 0)]
  have hget : DAY_NAMES.get? (7 : Int).toNat = none := by decide
  rw [hget]

/-- Witness for C8 (amended): the singleton fallback applied to `"7"`. -/
theorem claim_C8_witness : renderSingle (some DAY_NAMES) "7" = "7" :=
  claim_C8.2.2.2.2.2.2 "7" (by decide)

/-- Claim C10: a stepped term with a valid positive step but a non-numeric
base (`A/S` with `parseInt(A)` NaN, or `A-B/S` with `Number(A)` or
`Number(B)` NaN) raises no error and contributes no values, so fields made
of such terms parse to the empty set and the expression validates. -/
theorem claim_C10 :
    (∀ (r st : String) (s mn mx : Int),
      hasChar r ',' = false → hasChar r '/' = false → hasChar r '-' = false →
      hasChar st ',' = false → hasChar st '/' = false →
      r ≠ "*" → jsParseInt r = none → jsParseInt st = some s → 0 < s →
      parseField (r ++ "/" ++ st) mn mx = .ok ⟨[], r ++ "/" ++ st⟩) ∧
    (∀ (ra rb st : String) (s mn mx : Int),
      hasChar ra ',' = false → hasChar ra '/' = false → hasChar ra '-' = false →
      hasChar rb ',' = false → hasChar rb '/' = false → hasChar rb '-' = false →
      hasChar st ',' = false → hasChar st '/' = false →
      jsParseInt st = some s → 0 < s →
      (jsNumber ra = none ∨ jsNumber rb = none) →
      parseField (ra ++ "-" ++ rb ++ "/" ++ st) mn mx =
        .ok ⟨[], ra ++ "-" ++ rb ++ "/" ++ st⟩) ∧
    parseField "x/2" 0 59 = .ok ⟨[], "x/2"⟩ ∧
    parseField "x-y/2" 0 59 = .ok ⟨[], "x-y/2"⟩ ∧
    parseField "x/2,y/3" 0 59 = .ok ⟨[], "x/2,y/3"⟩ ∧
    validateCron "x/2 * * * *" = ⟨true, none⟩ := by
  refine ⟨?_, ?_, by decide, by decide, by decide, by decide⟩
  · intro r st s mn mx hr1 hr2 hr3 hs1 hs2 hstar hpr hps hpos
    have hdata : (r ++ "/" ++ st).data = r.data ++ '/' :: st.data := by
      rw [data_append3, List.append_assoc]
      rfl
    have hslash : '/' ∈ (r ++ "/" ++ st).data := by
      rw [hdata]; simp
    have hcomma : hasChar (r ++ "/" ++ st) ',' = false := by
      have h1 := hasChar_not_mem hr1
      have h2 := hasChar_not_mem hs1
      have hmem : ',' ∉ r.data ++ '/' :: st.data := by
        simp only [List.mem_append, List.mem_cons]
        push_neg
        exact ⟨h1, by decide, h2⟩
      simpa [hasChar, hdata] using hmem
    rw [parseField_empty_of]
    rw [splitOnChar_of_hasChar_false hcomma]
    apply collectAll_single
    have hterm_star : r ++ "/" ++ st ≠ "*" := ne_star_of_mem hslash (by decide)
    have hhs : hasChar (r ++ "/" ++ st) '/' = true := by
      simp [hasChar, hdata]
    have hsplit : splitOnChar '/' (r ++ "/" ++ st) = [r, st] := by
      have he : r ++ "/" ++ st = r ++ String.mk ['/'] ++ st := rfl
      rw [he, splitOnChar_append hr2, splitOnChar_of_hasChar_false hs2]
    rw [termValues, if_neg hterm_star, if_pos hhs, hsplit]
    dsimp only
    rw [hps]
    dsimp only
    rw [if_neg (by omega : ¬ s ≤ 0), if_neg hstar,
      if_neg (by rw [hr3]; exact Bool.false_ne_true), hpr]
  · intro ra rb st s mn mx ha1 ha2 ha3 hb1 hb2 hb3 hs1 hs2 hps hpos hnan
    have hrange : (ra ++ "-" ++ rb).data = ra.data ++ '-' :: rb.data := by
      rw [data_append3, List.append_assoc]
      rfl
    have hdata : (ra ++ "-" ++ rb ++ "/" ++ st).data =
        (ra.data ++ '-' :: rb.data) ++ '/' :: st.data := by
      rw [show ra ++ "-" ++ rb ++ "/" ++ st = (ra ++ "-" ++ rb) ++ "/" ++ st from rfl,
        data_append3, hrange, List.append_assoc]
      rfl
    have hslash : '/' ∈ (ra ++ "-" ++ rb ++ "/" ++ st).data := by
      rw [hdata]; simp
    have hcomma : hasChar (ra ++ "-" ++ rb ++ "/" ++ st) ',' = false := by
      have h1 := hasChar_not_mem ha1
      have h2 := hasChar_not_mem hb1
      have h3 := hasChar_not_mem hs1
      have hmem : ',' ∉ (ra.data ++ '-' :: rb.data) ++ '/' :: st.data := by
        simp only [List.mem_append, List.mem_cons]
        push_neg
        exact ⟨⟨h1, by decide, h2⟩, by decide, h3⟩
      simpa [hasChar, hdata] using hmem
    rw [parseField_empty_of]
    rw [splitOnChar_of_hasChar_false hcomma]
    apply collectAll_single
    have hterm_star : ra ++ "-" ++ rb ++ "/" ++ st ≠ "*" :=
      ne_star_of_mem hslash (by decide)
    have hhs : hasChar (ra ++ "-" ++ rb ++ "/" ++ st) '/' = true := by
      simp [hasChar, hdata]
    have hrslash : hasChar (ra ++ "-" ++ rb) '/' = false := by
      have h1 := hasChar_not_mem ha2
      have h2 := hasChar_not_mem hb2
      have hmem : '/' ∉ ra.data ++ '-' :: rb.data := by
        simp only [List.mem_append, List.mem_cons]
        push_neg
        exact ⟨h1, by decide, h2⟩
      simpa [hasChar, hrange] using hmem
    have hsplit : splitOnChar '/' (ra ++ "-" ++ rb ++ "/" ++ st) =
        [ra ++ "-" ++ rb, st] := by
      have he : ra ++ "-" ++ rb ++ "/" ++ st =
          (ra ++ "-" ++ rb) ++ String.mk ['/'] ++ st := rfl
      rw [he, splitOnChar_append hrslash, splitOnChar_of_hasChar_false hs2]
    have hrdash : '-' ∈ (ra ++ "-" ++ rb).data := by
      rw [hrange]; simp
    have hrstar : ra ++ "-" ++ rb ≠ "*" := ne_star_of_mem hrdash (by decide)
    have hrdashb : hasChar (ra ++ "-" ++ rb) '-' = true := by
      simp [hasChar, hrange]
    have hrsplit : splitOnChar '-' (ra ++ "-" ++ rb) = [ra, rb] := by
      have he : ra ++ "-" ++ rb = ra ++ String.mk ['-'] ++ rb := rfl
      rw [he, splitOnChar_append ha3, splitOnChar_of_hasChar_false hb3]
    rw [termValues, if_neg hterm_star, if_pos hhs, hsplit]
    dsimp only
    rw [hps]
    dsimp only
    rw [if_neg (by omega : ¬ s ≤ 0), if_neg hrstar, if_pos hrdashb, hrsplit]
    dsimp only
    rcases hnan with h | h
    · rw [h]
    · rw [h]
      cases jsNumber ra <;> rfl

/-- Witness for C10: both general parts applied at the spec's examples
`"x/2"` and `"x-y/2"`. -/
theorem claim_C10_witness :
    parseField ("x" ++ "/" ++ "2") 0 59 = .ok ⟨[], "x" ++ "/" ++ "2"⟩ ∧
    parseField ("x" ++ "-" ++ "y" ++ "/" ++ "2") 0 59 =
      .ok ⟨[], "x" ++ "-" ++ "y" ++ "/" ++ "2"⟩ :=
  ⟨claim_C10.1 "x" "2" 2 0 59 (by decide) (by decide) (by decide) (by decide)
      (by decide) (by decide) (by decide) (by decide) (by decide),
   claim_C10.2.1 "x" "y" "2" 2 0 59 (by decide) (by decide) (by decide)
      (by decide) (by decide) (by decide) (by decide) (by decide) (by decide)
      (by decide) (Or.inl (by decide))⟩

end Cronexplain
